import Mathlib

/-!
# Verification of the kiln dependency-resolution and build core

A shallow embedding, in Lean 4, of the dependency-resolution, package-cache,
local-import and command-synthesis logic of the kiln build tool (Rust).
Pure functions of the source are translated to Lean functions; filesystem
state is passed explicitly (a directory tree is a list of paths, a path is a
list of components); Rust panics / `process::exit` are modelled with
`Option` / explicit result constructors; network effects are abstracted into
an explicit registry / fetch-outcome parameter.

Source files embedded here:
- src/package_manager.rs   (flat-cache era: Package, resolver, importer)
- src/packaging/package_manager.rs (nested-cache era: resolver variant)
- src/config.rs            (Config, Dependnecy, weak equality, add_dependency)
- src/build_sys.rs         (link_sys_lib)
- src/utils.rs             (extract_include_statements)
-/

namespace Kiln

/-- A GitHub tag as deserialized from the tags endpoint
(src/package_manager.rs, `struct Tag`): the name doubles as the version. -/
structure Tag where
  name : String
  zipballUrl : String
  tarballUrl : String
deriving DecidableEq

/-- A resolved package of the flat-cache era
(src/package_manager.rs, `struct Package`). -/
structure Package where
  owner : String
  repoName : String
  tag : Tag
deriving DecidableEq

/-! ## Global cache paths (claim C2)

`Package::get_global_path` (src/package_manager.rs:68-72) joins
`PACKAGE_DIR` with the single fragment
`format!("{owner}_{repo_name}_{tag.name}")`;
`Dependnecy::get_global_path` (src/config.rs:183-190) instead joins
`PACKAGE_DIR` with `owner`, then `repo`, then `version`.

A `PathBuf` is modelled by its root flag and its normalized component
list, because `Path` equality is defined over components:
`PathBuf::push`/`join` *replaces the whole path when the pushed fragment
is absolute*, and comparison drops empty and interior `.` segments.  The
(environment-dependent) `PACKAGE_DIR` base is passed in explicitly. -/

/-- Split a character list at a separator, keeping empty segments. -/
def splitCharsOn (sep : Char) : List Char → List (List Char)
  | [] => [[]]
  | c :: rest =>
    let r := splitCharsOn sep rest
    if c = sep then [] :: r
    else
      match r with
      | [] => [[c]]
      | h :: t => (c :: h) :: t

/-- A filesystem path as `Path` comparison observes it: whether it has a
root, and its normal components. -/
structure RustPath where
  absolute : Bool
  comps : List String
deriving DecidableEq

/-- Whether a path fragment is absolute (Unix: begins with `/`). -/
def strIsAbsolute (s : String) : Bool :=
  match s.data with
  | [] => false
  | c :: _ => c = '/'

/-- The normal components of a pushed fragment, as `Path` comparison
normalizes them: split on `/`, dropping empty and `.` segments.  (The
leading-`./` `CurDir` special case cannot arise here: fragments are always
pushed onto the non-empty `PACKAGE_DIR` base, where a `.` segment is
interior and dropped.) -/
def fragComps (s : String) : List String :=
  ((splitCharsOn '/' s.data).map String.mk).filter (fun c => c ≠ "" ∧ c ≠ ".")

/-- `PathBuf::push` (hence `join`): an absolute fragment replaces the whole
path; otherwise its components are appended. -/
def pushStr (base : RustPath) (s : String) : RustPath :=
  if strIsAbsolute s then { absolute := true, comps := fragComps s }
  else { absolute := base.absolute, comps := base.comps ++ fragComps s }

/-- `Package::get_global_path` of the flat-cache era:
`PACKAGE_DIR.join(format!("{}_{}_{}", owner, repo_name, tag_name))`. -/
def getGlobalPathFlat (pkgDir : RustPath) (owner repoName tagName : String) :
    RustPath :=
  pushStr pkgDir (owner ++ "_" ++ repoName ++ "_" ++ tagName)

/-- `Dependnecy::get_global_path` of the nested-cache era:
`PACKAGE_DIR.join(owner).join(repo).join(version)`. -/
def getGlobalPathNested (pkgDir : RustPath) (owner repoName version : String) :
    RustPath :=
  pushStr (pushStr (pushStr pkgDir owner) repoName) version

/-- The `PACKAGE_DIR` base used by the concrete path evaluations below
(src/constants.rs: `<data-dir>/packages`). -/
def pkgBase : RustPath :=
  RustPath.mk true ["usr", "share", "kiln", "packages"]

/-! ## Version / tag selection (claim C5)

`add_package` in src/package_manager.rs:332-361 selects, when no version is
requested, `tags.iter().max_by(|a, b| a.tag.name.cmp(&b.tag.name))` — the
lexicographically maximal tag name (Rust `max_by` keeps the later element on
ties).  The packaging-era `add_package`
(src/packaging/package_manager.rs:264-290) instead selects
`tags.last().unwrap()` — the final element of the list returned by the API,
whatever its name.  When a version is requested, the flat era takes the
first tag with that name (loop with `break`), the packaging era the last
(loop without `break`). -/

/-- Rust `Iterator::max_by` with comparator `a.tag.name.cmp(&b.tag.name)`
on a non-empty iterator `t0 :: rest`: fold keeping the accumulator only when
it is strictly greater. -/
def maxByName (t0 : Tag) (rest : List Tag) : Tag :=
  rest.foldl (fun acc x => if x.name < acc.name then acc else x) t0

/-- Flat-era tag selection inside `add_package`
(src/package_manager.rs:333-361). -/
def selectTagMain (tags : List Tag) (version : Option String) : Except String Tag :=
  match tags with
  | [] => .error "No versions available"
  | t0 :: rest =>
    match version with
    | some v =>
      match (t0 :: rest).find? (fun t => t.name = v) with
      | some t => .ok t
      | none => .error ("Version " ++ v ++ " does not exist")
    | none => .ok (maxByName t0 rest)

/-- The packaging-era version-match loop: no `break`, so the last matching
tag wins (src/packaging/package_manager.rs:273-280). -/
def lastMatch (tags : List Tag) (v : String) : Option Tag :=
  tags.foldl (fun acc t => if t.name = v then some t else acc) none

/-- Packaging-era tag selection inside `add_package`
(src/packaging/package_manager.rs:264-290): with no version requested it
takes `tags.last().unwrap()`. -/
def selectTagPack (tags : List Tag) (version : Option String) : Except String Tag :=
  match tags with
  | [] => .error "No versions available"
  | t0 :: rest =>
    match version with
    | some v =>
      match lastMatch (t0 :: rest) v with
      | some t => .ok t
      | none => .error ("Version " ++ v ++ " does not exist")
    | none => .ok ((t0 :: rest).getLast (List.cons_ne_nil t0 rest))

/-! ## GitHub URI parsing (claims C10, C6, C3)

`parse_github_uri` (src/package_manager.rs:121-137, duplicated at
src/packaging/package_manager.rs:94-110): split at the first occurrence of
`"github.com/"`, strip a trailing `".com"`/`".git"`, then split the rest at
the first `"/"` into owner and project name. -/

/-- Rust `str::split_once(pat)` on character lists: the parts strictly
before and strictly after the first occurrence of `pat`. -/
def listSplitOnce (pat : List Char) : List Char → Option (List Char × List Char)
  | [] => if pat.isPrefixOf ([] : List Char) then some ([], []) else none
  | c :: rest =>
    if pat.isPrefixOf (c :: rest) then some ([], (c :: rest).drop pat.length)
    else (listSplitOnce pat rest).map (fun q => (c :: q.1, q.2))

/-- `str::split_once` on strings. -/
def splitOnceStr (s pat : String) : Option (String × String) :=
  (listSplitOnce pat.data s.data).map (fun q => (String.mk q.1, String.mk q.2))

/-- Rust `str::starts_with` for string prefixes. -/
def strStartsWith (s pre : String) : Bool :=
  pre.data.isPrefixOf s.data

/-- Rust `str::ends_with` for string suffixes. -/
def strEndsWith (s suffix : String) : Bool :=
  suffix.data.isSuffixOf s.data

/-- Rust `&uri[..uri.len() - n]` for ASCII suffixes: drop the last `n`
characters. -/
def strDropRight (s : String) (n : Nat) : String :=
  String.mk (s.data.take (s.data.length - n))

/-- `parse_github_uri` (src/package_manager.rs:121-137). -/
def parseGithubUri (uri : String) : Except String (String × String) :=
  match splitOnceStr uri "github.com/" with
  | none => .error "Invalid GitHub uri"
  | some (_, rest) =>
    let rest := if strEndsWith rest ".com" || strEndsWith rest ".git" then
      strDropRight rest 4 else rest
    match splitOnceStr rest "/" with
    | none => .error "Invalid GitHub uri"
    | some (owner, projName) => .ok (owner, projName)

/-! ## Dependency records and weak equality (claims C10, C3) -/

/-- The rich dependency record of the flat-cache era
(src/config.rs, `struct Dependnecy`; the field spelling follows the
source). -/
structure Dependnecy where
  uri : String
  version : String
  includeDir : Option String := none
  sourceDir : Option String := none
  sharedObjectDir : Option String := none
  staticLibDir : Option String := none
deriving DecidableEq

/-- `Dependnecy::owner` (src/config.rs:173-176) unwraps the parse result:
`none` models the panic on an unparseable uri. -/
def ownerOf? (d : Dependnecy) : Option String :=
  (parseGithubUri d.uri).toOption.map Prod.fst

/-- `Dependnecy::repo_name` (src/config.rs:178-181), same panic model. -/
def repoOf? (d : Dependnecy) : Option String :=
  (parseGithubUri d.uri).toOption.map Prod.snd

/-- `impl PartialEq for Dependnecy` (src/config.rs:296-303): weak equality
on (owner, repository) only.  `none` models a panic inside the comparison.
(The source short-circuits `&&` after comparing owners; since
`repo_name` parses the same uri as `owner`, its panic behaviour is
identical, so evaluating both sides first is observationally the same.) -/
def weakEq? (a b : Dependnecy) : Option Bool :=
  match ownerOf? a, ownerOf? b, repoOf? a, repoOf? b with
  | some oa, some ob, some ra, some rb => some (oa == ob && ra == rb)
  | _, _, _, _ => none

/-- The scan inside `Dependnecy::add_dependency` (src/config.rs:273-281):
early-returns `true` at the first weakly-equal entry; `none` models a panic
in one of the comparisons. -/
def addDepAux (newDep : Dependnecy) : List Dependnecy → Option Bool
  | [] => some false
  | d :: rest =>
    match weakEq? d newDep with
    | none => none
    | some true => some true
    | some false => addDepAux newDep rest

/-- `Dependnecy::add_dependency` (src/config.rs:273-281): append unless a
weakly-equal record is already present.  Returns the updated list and the
"already existed" flag; `none` models a panic. -/
def addDependency? (deps : List Dependnecy) (newDep : Dependnecy) :
    Option (List Dependnecy × Bool) :=
  match addDepAux newDep deps with
  | none => none
  | some true => some (deps, true)
  | some false => some (deps ++ [newDep], false)

/-! ## The dependency resolvers (claims C3, C4, C6)

Network and cache effects are abstracted into an explicit registry mapping
a repository identity (owner, repo) to what the code would observe: the tag
list returned by the API and — once installed — the package's own manifest
dependency list and configured include/source directories.  The installer,
metadata generation and local import steps of `add_package` do not affect
the returned (frontier, record) pair and are not repeated here (they are
modelled separately below). -/

/-- A dependency entry as read from a cached package's own manifest; only
its `uri` and `version` fields are consulted by the resolvers. -/
structure DepEntry where
  uri : String
  version : String
deriving DecidableEq

/-- What the resolver observes about one repository. -/
structure RepoData where
  /-- The tag list the API returns for this repository. -/
  tags : List Tag
  /-- `none`: the installed package has no Kiln.toml (`get_kiln_cfg` gives
  `Ok(None)`); `some none`: a Kiln.toml whose dependency list field is
  `None`; `some (some ds)`: a Kiln.toml with dependency list `ds`. -/
  kilnCfgDeps : Option (Option (List DepEntry))
  /-- Result of `Package::get_include_dir` (`none` = ambiguous). -/
  includeDir : Option String
  /-- Result of `Package::get_source_dir` (`none` = ambiguous). -/
  sourceDir : Option String
deriving DecidableEq

/-- The remote/cache world seen by a resolution run. -/
abbrev Registry := List ((String × String) × RepoData)

def lookupRepo (reg : Registry) (o p : String) : Option RepoData :=
  (reg.find? (fun e => e.1.1 == o && e.1.2 == p)).map Prod.snd

/-- `format!("https://github.com/{}/{}", owner, proj_name)` — used both as
the dedup key of `packages_added` and as the stored dependency uri. -/
def repoUri (o p : String) : String :=
  "https://github.com/" ++ o ++ "/" ++ p

/-- The manifest record `add_package` builds
(src/package_manager.rs:411-418). -/
def mkDepRecord (o p tagName : String) (data : RepoData) : Dependnecy :=
  { uri := repoUri o p, version := tagName,
    includeDir := data.includeDir, sourceDir := data.sourceDir,
    sharedObjectDir := none, staticLibDir := none }

/-- Flat-era `add_package` (src/package_manager.rs:324-434) with effects
abstracted; returns the next-frontier triples and the manifest record.
The chain loop (lines 422-431) pushes
`[owner, proj_name, chain_dep.version]` — the *declaring* package's owner
and project name paired with the child's version.  A Kiln.toml whose
dependency list field is `None` hits
`cfg.dependnecy.as_ref().unwrap()` — modelled as the panic error. -/
def addPackageMain (reg : Registry) (o p : String) (version : Option String) :
    Except String (List (String × String × String) × Dependnecy) :=
  match lookupRepo reg o p with
  | none => .error "Non 200 status code from github"
  | some data =>
    match data.tags with
    | [] => .error ("No versions available for " ++ repoUri o p)
    | t0 :: rest =>
      match selectTagMain (t0 :: rest) version with
      | .error e => .error e
      | .ok tag =>
        match data.kilnCfgDeps with
        | none => .ok ([], mkDepRecord o p tag.name data)
        | some none => .error "panic: unwrap of None dependnecy list"
        | some (some ds) =>
          .ok (ds.map (fun d => (o, p, d.version)), mkDepRecord o p tag.name data)

/-- The packaging-era manifest's minimal dependency record
(`struct KilnIngot`, referenced from src/packaging/package_manager.rs; its
defining config module is not in the source tree).  The spec (section 3)
describes it as a minimal `(uri, version)` pair always carrying a canonical
GitHub URI. -/
structure KilnIngot where
  uri : String
  version : String
deriving DecidableEq

/-- Modelled from the spec: `KilnIngot::new(owner, proj_name, tag_name)`
(called at src/packaging/package_manager.rs:292; impl not in the source
tree) — builds the record from the canonical GitHub URI and the chosen
version tag. -/
def KilnIngot.new (o p v : String) : KilnIngot :=
  { uri := repoUri o p, version := v }

/-- Modelled from the spec: weak equality for the packaging-era record
(spec section 3: same dependency iff owner and repository match, ignoring
the version). -/
def ingotWeakEq (a b : KilnIngot) : Bool :=
  match (parseGithubUri a.uri).toOption, (parseGithubUri b.uri).toOption with
  | some pa, some pb => pa.1 == pb.1 && pa.2 == pb.2
  | _, _ => false

/-- Modelled from the spec: `KilnIngot::add_dependency`
(called at src/packaging/package_manager.rs:246; impl not in the source
tree).  Spec section 4.3: weak-equality deduplication applied by the target
manifest's append operation — a later record for an already-present
repository is dropped, not merged.  Mirror of the in-tree
`Dependnecy::add_dependency` (src/config.rs:273-281). -/
def KilnIngot.addDependency (deps : List KilnIngot) (newDep : KilnIngot) :
    List KilnIngot :=
  if deps.any (fun d => ingotWeakEq d newDep) then deps else deps ++ [newDep]

/-- The packaging-era chain loop
(src/packaging/package_manager.rs:302-311): parse each child's own uri; a
parse failure propagates (`?`). -/
def chainIdsPack : List DepEntry → Except String (List (String × String × String))
  | [] => .ok []
  | d :: rest =>
    match parseGithubUri d.uri with
    | .error e => .error e
    | .ok q =>
      match chainIdsPack rest with
      | .error e => .error e
      | .ok ids => .ok ((q.1, q.2, d.version) :: ids)

/-- Packaging-era `add_package`
(src/packaging/package_manager.rs:256-315): selection by `selectTagPack`,
missing dependency list replaced by the empty list (lines 299-301), chain
identities parsed from each child's uri. -/
def addPackagePack (reg : Registry) (o p : String) (version : Option String) :
    Except String (List (String × String × String) × KilnIngot) :=
  match lookupRepo reg o p with
  | none => .error "Non 200 status code from github"
  | some data =>
    match data.tags with
    | [] => .error ("No versions available for " ++ repoUri o p)
    | t0 :: rest =>
      match selectTagPack (t0 :: rest) version with
      | .error e => .error e
      | .ok tag =>
        match data.kilnCfgDeps with
        | none => .ok ([], KilnIngot.new o p tag.name)
        | some cfgDeps =>
          match chainIdsPack (cfgDeps.getD []) with
          | .error e => .error e
          | .ok ids => .ok (ids, KilnIngot.new o p tag.name)

/-- The launch half of one frontier iteration
(src/package_manager.rs:291-309 and the identical loop at
src/packaging/package_manager.rs:222-240): walk the frontier in order,
skipping entries whose `https://github.com/<o>/<p>` key is already in
`packages_added`, inserting the key otherwise.  Returns the grown seen-set
and the launched requests, in order. -/
def launchPhase (seen : List String) :
    List (String × String × String) →
      List String × List (String × String × String)
  | [] => (seen, [])
  | (o, p, v) :: rest =>
    if repoUri o p ∈ seen then launchPhase seen rest
    else
      let r := launchPhase (repoUri o p :: seen) rest
      (r.1, (o, p, v) :: r.2)

/-- An empty version string stands for "no version requested"
(src/package_manager.rs:294-298). -/
def normVersion (v : String) : Option String :=
  if v = "" then none else some v

/-- The join half of one flat-era frontier iteration
(src/package_manager.rs:312-316): await each launched task in order, *push*
its record onto the manifest list, extend the next frontier with its chain
triples; the first error aborts the whole resolution. -/
def joinPhaseMain (reg : Registry) :
    List (String × String × String) → List Dependnecy →
      List (String × String × String) →
      Except String (List Dependnecy × List (String × String × String))
  | [], deps, next => .ok (deps, next)
  | (o, p, v) :: rest, deps, next =>
    match addPackageMain reg o p (normVersion v) with
    | .error e => .error e
    | .ok r => joinPhaseMain reg rest (deps ++ [r.2]) (next ++ r.1)

/-- The join half of one packaging-era frontier iteration
(src/packaging/package_manager.rs:243-248): like `joinPhaseMain` but the
record is appended through `KilnIngot::add_dependency`. -/
def joinPhasePack (reg : Registry) :
    List (String × String × String) → List KilnIngot →
      List (String × String × String) →
      Except String (List KilnIngot × List (String × String × String))
  | [], deps, next => .ok (deps, next)
  | (o, p, v) :: rest, deps, next =>
    match addPackagePack reg o p (normVersion v) with
    | .error e => .error e
    | .ok r => joinPhasePack reg rest (KilnIngot.addDependency deps r.2) (next ++ r.1)

/-- Outcome of a fuel-bounded resolution run. -/
inductive ResOut (α : Type) where
  | done (deps : List α)
  | err (msg : String)
  | fuelOut
deriving DecidableEq

/-- The flat-era `while deps.len() > 0` loop
(src/package_manager.rs:288-317), fuel-bounded: one fuel unit per frontier
iteration. -/
def resolveMainLoop (reg : Registry) :
    Nat → List String → List Dependnecy → List (String × String × String) →
      ResOut Dependnecy
  | 0, _, _, _ => .fuelOut
  | fuel + 1, seen, deps, frontier =>
    if frontier.isEmpty then .done deps
    else
      let l := launchPhase seen frontier
      match joinPhaseMain reg l.2 deps [] with
      | .error e => .err e
      | .ok r => resolveMainLoop reg fuel l.1 r.1 r.2

/-- The packaging-era loop (src/packaging/package_manager.rs:219-249),
fuel-bounded. -/
def resolvePackLoop (reg : Registry) :
    Nat → List String → List KilnIngot → List (String × String × String) →
      ResOut KilnIngot
  | 0, _, _, _ => .fuelOut
  | fuel + 1, seen, deps, frontier =>
    if frontier.isEmpty then .done deps
    else
      let l := launchPhase seen frontier
      match joinPhasePack reg l.2 deps [] with
      | .error e => .err e
      | .ok r => resolvePackLoop reg fuel l.1 r.1 r.2

/-- Flat-era `resolve_adding_package` (src/package_manager.rs:269-320):
start from the manifest's existing dependency list (empty when absent) and
the single root request, version `""` when unspecified. -/
def resolveAddingPackageMain (reg : Registry) (cfgDeps : Option (List Dependnecy))
    (o p : String) (version : Option String) (fuel : Nat) : ResOut Dependnecy :=
  resolveMainLoop reg fuel [] (cfgDeps.getD []) [(o, p, version.getD "")]

/-- Packaging-era `resolve_adding_package`
(src/packaging/package_manager.rs:200-252). -/
def resolveAddingPackagePack (reg : Registry) (cfgDeps : Option (List KilnIngot))
    (o p : String) (version : Option String) (fuel : Nat) : ResOut KilnIngot :=
  resolvePackLoop reg fuel [] (cfgDeps.getD []) [(o, p, version.getD "")]

/-! ## The local importer (claims C1, C8)

`copy_deps_global_to_local` (src/package_manager.rs:438-532) and its
rollback helper `remove_deps_local` (src/package_manager.rs:534-551).  The
project-local filesystem is a list of paths; a path is its list of
components relative to the project root (the process cwd).  Directories are
implicit. -/

/-- The globally cached package as the importer observes it. -/
structure CachedPackage where
  owner : String
  repoName : String
  /-- Result of `Package::get_source_dir` (`none` = `Err(PkgAmbiguous)`). -/
  sourceDirRel : Option String
  /-- Result of `Package::get_include_dir` (`none` = `Err(PkgAmbiguous)`). -/
  includeDirRel : Option String
  /-- Package-root-relative directory → its file names in `read_dir`
  order. -/
  dirContents : List (List String × List String)
deriving DecidableEq

def filesInDir (pkg : CachedPackage) (dir : List String) : Option (List String) :=
  (pkg.dirContents.find? (fun e => e.1 == dir)).map Prod.snd

/-- The extension table of `copy_deps_global_to_local`
(src/package_manager.rs:439-448); `none` models the
`eprintln` + `process::exit(1)` taken on any other dep type. -/
def fileExtFor (depType : String) : Option (List String) :=
  match depType with
  | "source_code" => some [".c", ".cpp", ".cu"]
  | "header_files" => some [".h", ".hpp", ".cuh"]
  | "shared_objects" => some [".so", ".dylib", ".dll"]
  | "static_libraries" => some [".a", ".lib"]
  | _ => none

/-- `Path::iter` on a relative path: its non-empty slash-separated
components (the `CurDir` normalisation special cases are not modelled; no
modelled run uses a `.` segment). -/
def splitPath (s : String) : List String :=
  ((splitCharsOn '/' s.data).map String.mk).filter (fun c => c ≠ "")

/-- Rust `str::trim` (whitespace only at both ends). -/
def strTrim (s : String) : String :=
  String.mk (((s.data.dropWhile Char.isWhitespace).reverse.dropWhile
    Char.isWhitespace).reverse)

/-- `matches!(gsdr_str.trim(), "" | "." | "./")`
(src/package_manager.rs:463). -/
def matchesCurrentDir (s : String) : Bool :=
  strTrim s == "" || strTrim s == "." || strTrim s == "./"

/-- The removal loop of `remove_deps_local` (src/package_manager.rs:541-548):
iterate the *path components* of the package's relative source directory and
`fs::remove_file` (resolved against the cwd, hence the single-component
path) each one that occurs among `fileNames`; removing a missing file
fails. -/
def removeComps (fileNames : List String) :
    List String → List (List String) → Except Unit (List (List String))
  | [], fs => .ok fs
  | comp :: rest, fs =>
    if comp ∈ fileNames then
      if [comp] ∈ fs then removeComps fileNames rest (fs.erase [comp])
      else .error ()
    else removeComps fileNames rest fs

/-- `remove_deps_local` (src/package_manager.rs:534-551).  `file_names` is
built from `cwd.join("dependencies").join(dep_type).iter()` — the *path
components* of the local category directory's path, not the directory's
entries. -/
def removeDepsLocal (cwdComps : List String) (pkg : CachedPackage)
    (depType : String) (fs : List (List String)) :
    Except Unit (List (List String)) :=
  let fileNames := cwdComps ++ ["dependencies", depType]
  match pkg.sourceDirRel with
  | none => .ok fs
  | some rel => removeComps fileNames (splitPath rel) fs

/-- Outcome of an import call; `exited` marks the `std::process::exit(1)`
paths, with the filesystem state at exit. -/
inductive CopyResult where
  | ok (fs : List (List String))
  | exited (fs : List (List String))
  | ioErr
deriving DecidableEq

/-- The per-file loop of `copy_deps_global_to_local`
(src/package_manager.rs:473-521): skip files outside the extension set; on
a name collision with the local category directory, run the rollback helper
then exit; otherwise copy the file in. -/
def copyLoop (cwdComps : List String) (pkg : CachedPackage) (depType : String)
    (exts : List String) :
    List String → List (List String) → CopyResult
  | [], fs => .ok fs
  | f :: rest, fs =>
    if !(exts.any (fun e => strEndsWith f e)) then
      copyLoop cwdComps pkg depType exts rest fs
    else if ["dependencies", depType, f] ∈ fs then
      match removeDepsLocal cwdComps pkg depType fs with
      | .error _ => .ioErr
      | .ok fs2 => .exited fs2
    else
      copyLoop cwdComps pkg depType exts rest
        (fs ++ [["dependencies", depType, f]])

/-- `copy_deps_global_to_local` (src/package_manager.rs:438-532).  Note
line 457: the enumerated directory is `pkg.get_source_dir()` for *every*
category, including `header_files`; an ambiguous source dir only logs and
returns `Ok`; `read_dir` on a missing directory propagates an error. -/
def copyDepsGlobalToLocal (cwdComps : List String) (pkg : CachedPackage)
    (depType : String) (fs : List (List String)) : CopyResult :=
  match fileExtFor depType with
  | none => .exited fs
  | some exts =>
    match pkg.sourceDirRel with
    | none => .ok fs
    | some rel =>
      let dir := if matchesCurrentDir rel then [] else splitPath rel
      match filesInDir pkg dir with
      | none => .ioErr
      | some files => copyLoop cwdComps pkg depType exts files fs

/-! ## Global installation (claim C9)

`install_globally` (src/package_manager.rs:177-224; the packaging-era copy
at src/packaging/package_manager.rs:146-195 has the identical existence
short-circuit).  The global cache is a list of paths; the download and
unpack are abstracted into an explicit fetch outcome listing the entries
the archive unpacks to (relative to the package directory). -/

/-- `install_globally`: returns the final cache state, whether a network
fetch was performed, and whether the call succeeded.  If the package's
global path already exists the call returns `Ok` immediately; otherwise the
directory is created *before* the fetch, so even a failed fetch leaves the
directory present. -/
def installGlobally (fs : List (List String)) (pkgDir : List String)
    (fetch : Except String (List (List String))) :
    List (List String) × Bool × Bool :=
  if pkgDir ∈ fs then (fs, false, true)
  else
    let fs1 := fs ++ [pkgDir]
    match fetch with
    | .error _ => (fs1, true, false)
    | .ok entries => (fs1 ++ entries.map (fun e => pkgDir ++ e), true, true)

/-! ## System-library flag inference (claim C7)

`link_sys_lib` (src/build_sys.rs:73-104) and
`extract_include_statements` (src/utils.rs:42-65). -/

/-- The fixed header-to-linker-flag table `c_lib_mappings`
(src/build_sys.rs:74-91). -/
def cLibMappings : List (String × String) :=
  [("<math.h>", "-lm"),
   ("<omp.h>", "-fopenmp"),
   ("<pthread.h>", "-pthread"),
   ("<zlib.h>", "-lz"),
   ("<curl/curl.h>", "-lcurl"),
   ("<ssl.h>", "-lssl"),
   ("<crypto.h>", "-lcrypto"),
   ("<ncurses.h>", "-lncurses"),
   ("<mariadb/mysql.h>", "-lmariadb"),
   ("<sqlite3.h>", "-lsqlite3"),
   ("<GL/gl.h>", "-lGL"),
   ("<GL/glut.h>", "-lglut"),
   ("<X11/Xlib.h>", "-lX11"),
   ("<immintrin.h>", "-march=native"),
   ("<liburing.h>", "-luring"),
   ("<arm_neon.h>", "-mfpu=neon")]

/-- `link_sys_lib` (src/build_sys.rs:73-104): the include-scanning loop
over `c_lib_mappings` is commented out in the source (lines 95-101, marked
"TODO: Get thing working"), so nothing is ever pushed into `libs` and the
function returns the empty vector for every input. -/
def linkSysLib (_includes : List String) : List String :=
  let libs : List String := []
  libs

/-- The behaviour the commented-out loop (src/build_sys.rs:96-101) and the
spec describe: for each table entry whose header occurs among the scanned
include statements, add the mapped linker flag. -/
def linkSysLibIntended (includes : List String) : List String :=
  cLibMappings.foldl (fun libs m => if m.1 ∈ includes then libs ++ [m.2] else libs) []

/-- The per-line extraction of `extract_include_statements`
(src/utils.rs:57): `format!("<{}", s.split_once("<").unwrap().1)`; `none`
models the unwrap panic. -/
def extractFromLine (s : String) : Option String :=
  (splitOnceStr s "<").map (fun q => "<" ++ q.2)

/-- Collect the include statements of one source file's text
(src/utils.rs:53-61): split on newlines, trim, keep lines that start with
`#include` and end with `>`, rebuild each from its first `<`. -/
def extractIncludesText (text : String) : Option (List String) :=
  ((((splitCharsOn '\n' text.data).map String.mk).map strTrim).filter
    (fun s => strStartsWith s "#include" && strEndsWith s ">")).mapM extractFromLine

/-- Order-preserving de-duplication, modelling accumulation into the
`HashSet` (whose iteration order is unspecified; only membership is used
below). -/
def dedupKeepFirst (l : List String) : List String :=
  l.foldl (fun acc s => if s ∈ acc then acc else acc ++ [s]) []

/-- `extract_include_statements` (src/utils.rs:42-65) over the list of
source-file texts found in the project's `src` directory. -/
def extractIncludeStatements (files : List String) : Option (List String) :=
  (files.mapM extractIncludesText).map (fun ls => dedupKeepFirst ls.flatten)

/-! ## Concrete fixtures used in the evaluation theorems below -/

/-- A single release tag named `1.0`. -/
def tag10 : Tag :=
  Tag.mk "1.0" "" ""

/-- A two-package registry with a dependency cycle: `alice/libA` declares a
dependency on `bob/libB` and vice versa, each with one tag `1.0` and
conventional directories. -/
def regCycle : Registry :=
  [(("alice", "libA"),
      RepoData.mk [tag10] (some (some [DepEntry.mk (repoUri "bob" "libB") "1.0"]))
        (some "include") (some "src")),
   (("bob", "libB"),
      RepoData.mk [tag10] (some (some [DepEntry.mk (repoUri "alice" "libA") "1.0"]))
        (some "include") (some "src"))]

/-- A repository with tags `1.0` and `2.0` and no manifest of its own. -/
def dataDedup : RepoData :=
  RepoData.mk [Tag.mk "1.0" "" "", Tag.mk "2.0" "" ""] none none none

/-- Registry holding only `alice/lib` with `dataDedup`. -/
def regDedup : Registry :=
  [(("alice", "lib"), dataDedup)]

/-- A cached package whose metadata names `src` as source directory and
`include` as include directory; `src` holds `alpha.c` and `util.c` (in
`read_dir` order). -/
def pkgX : CachedPackage :=
  CachedPackage.mk "xowner" "xrepo" (some "src") (some "include")
    [(["src"], ["alpha.c", "util.c"])]

/-- A cached package whose `src` holds only `impl.c` while its `include`
directory holds the header `api.h`. -/
def pkgHdr : CachedPackage :=
  CachedPackage.mk "howner" "hrepo" (some "src") (some "include")
    [(["src"], ["impl.c"]), (["include"], ["api.h"])]

/-- A dependency record whose uri is not a GitHub uri. -/
def badDep : Dependnecy :=
  { uri := "https://example.com/foo", version := "0.1" }

/-- A well-formed dependency record (`Dependnecy::new` builds uris of this
shape, src/config.rs:165-171). -/
def depAlice : Dependnecy :=
  { uri := "https://github.com/alice/libfoo.git", version := "1.0" }

/-- Splitting a one-separator-joined pair is unambiguous when neither left
part contains the separator. -/
theorem append_sep_inj {sep : Char} :
    ∀ (a c b d : List Char), sep ∉ a → sep ∉ c →
      a ++ sep :: b = c ++ sep :: d → a = c ∧ b = d := by
  intro a
  induction a with
  | nil =>
    intro c b d _ hc h
    cases c with
    | nil => simpa using h
    | cons x xs =>
      simp only [List.nil_append, List.cons_append, List.cons.injEq] at h
      exact absurd (h.1 ▸ List.mem_cons_self x xs) hc
  | cons x xs ih =>
    intro c b d ha hc h
    cases c with
    | nil =>
      simp only [List.cons_append, List.nil_append, List.cons.injEq] at h
      exact absurd (h.1 ▸ List.mem_cons_self x xs) ha
    | cons y ys =>
      simp only [List.cons_append, List.cons.injEq] at h
      have hxs : sep ∉ xs := fun hmem => ha (List.mem_cons_of_mem x hmem)
      have hys : sep ∉ ys := fun hmem => hc (List.mem_cons_of_mem y hmem)
      obtain ⟨h1, h2⟩ := ih ys b d hxs hys h.2
      exact ⟨by rw [h.1, h1], h2⟩

theorem string_append_data (a b : String) : (a ++ b).data = a.data ++ b.data := rfl

theorem string_eq_of_data_eq {a b : String} (h : a.data = b.data) : a = b := by
  cases a; cases b; exact congrArg String.mk h

/-- Joining three components with a separator character is injective when no
component contains the separator. -/
theorem sep_join3_inj {sep : Char} {o r v o' r' v' : List Char}
    (ho : sep ∉ o) (hr : sep ∉ r) (ho' : sep ∉ o') (hr' : sep ∉ r')
    (h : o ++ sep :: (r ++ sep :: v) = o' ++ sep :: (r' ++ sep :: v')) :
    o = o' ∧ r = r' ∧ v = v' := by
  obtain ⟨h1, h2⟩ := append_sep_inj o o' _ _ ho ho' h
  obtain ⟨h3, h4⟩ := append_sep_inj r r' _ _ hr hr' h2
  exact ⟨h1, h3, h4⟩

theorem data_slash : ("/" : String).data = ['/'] := rfl

theorem data_underscore : ("_" : String).data = ['_'] := rfl

theorem splitCharsOn_no_sep (sep : Char) :
    ∀ l : List Char, sep ∉ l → splitCharsOn sep l = [l] := by
  intro l
  induction l with
  | nil => intro _; rfl
  | cons c rest ih =>
    intro h
    have hc : ¬ c = sep := by
      rintro rfl
      exact h (List.mem_cons_self _ _)
    have hrest : sep ∉ rest := fun m => h (List.mem_cons_of_mem c m)
    simp only [splitCharsOn, ih hrest, if_neg hc]

theorem string_mk_data (s : String) : String.mk s.data = s := by
  cases s
  rfl

/-- A fragment with no slash, non-empty and not `.`, contributes exactly
itself as one component. -/
theorem fragComps_plain (s : String) (hs : '/' ∉ s.data) (hne : s ≠ "")
    (hdot : s ≠ ".") : fragComps s = [s] := by
  unfold fragComps
  rw [splitCharsOn_no_sep '/' s.data hs]
  simp [string_mk_data, hne, hdot]

theorem strIsAbsolute_plain (s : String) (hs : '/' ∉ s.data) (hne : s ≠ "") :
    strIsAbsolute s = false := by
  unfold strIsAbsolute
  cases hd : s.data with
  | nil =>
    exact absurd (string_eq_of_data_eq (by rw [hd])) hne
  | cons c cs =>
    have hc : ¬ c = '/' := by
      rintro rfl
      exact hs (by rw [hd]; exact List.mem_cons_self _ _)
    simp [hc]

/-- Pushing a plain (slash-free, non-empty, non-`.`) fragment appends it as
one component. -/
theorem pushStr_plain (base : RustPath) (s : String) (hs : '/' ∉ s.data)
    (hne : s ≠ "") (hdot : s ≠ ".") :
    pushStr base s = RustPath.mk base.absolute (base.comps ++ [s]) := by
  unfold pushStr
  rw [strIsAbsolute_plain s hs hne]
  simp [fragComps_plain s hs hne hdot]

theorem flat_name_data (o r v : String) :
    (o ++ "_" ++ r ++ "_" ++ v).data =
      o.data ++ '_' :: (r.data ++ '_' :: v.data) := by
  simp only [string_append_data, data_underscore, List.append_assoc,
    List.singleton_append, List.cons_append, List.nil_append]

theorem flat_name_no_slash (o r v : String) (ho : '/' ∉ o.data)
    (hr : '/' ∉ r.data) (hv : '/' ∉ v.data) :
    '/' ∉ (o ++ "_" ++ r ++ "_" ++ v).data := by
  rw [flat_name_data]
  intro hm
  rcases List.mem_append.mp hm with h | h
  · exact ho h
  rcases List.mem_cons.mp h with h | h
  · exact absurd h (by decide)
  rcases List.mem_append.mp h with h | h
  · exact hr h
  rcases List.mem_cons.mp h with h | h
  · exact absurd h (by decide)
  · exact hv h

theorem flat_name_ne_empty (o r v : String) :
    (o ++ "_" ++ r ++ "_" ++ v) ≠ "" := by
  intro h
  have hd := congrArg String.data h
  rw [flat_name_data] at hd
  simp at hd

theorem flat_name_ne_dot (o r v : String) :
    (o ++ "_" ++ r ++ "_" ++ v) ≠ "." := by
  intro h
  have hm : '_' ∈ (o ++ "_" ++ r ++ "_" ++ v).data := by
    rw [flat_name_data]
    exact List.mem_append_right _ (List.mem_cons_self _ _)
  rw [h] at hm
  exact absurd hm (by decide)

/-- C2 (amended): the global cache path is a pure function of the
(owner, repository, version) triple in both manifest eras, and it is
injective on triples of *plain* components — each component slash-free
(so no fragment is absolute and none splits into several path
components), for the flat era additionally underscore-free owner and
repository, and for the nested era additionally non-empty and not `.`
(empty and `.` segments are normalized away by `Path` comparison).
Unrestricted injectivity fails: underscores glue ambiguously in the flat
layout and an absolute fragment makes `PathBuf::join` discard the base —
see the counterexample. -/
theorem globalPath_pure_and_injective_on_plain_components :
    (∀ (base : RustPath) (o r v : String),
      getGlobalPathFlat base o r v = getGlobalPathFlat base o r v ∧
      getGlobalPathNested base o r v = getGlobalPathNested base o r v) ∧
    (∀ (base : RustPath) (o r v o' r' v' : String),
      '_' ∉ o.data → '_' ∉ r.data → '_' ∉ o'.data → '_' ∉ r'.data →
      '/' ∉ o.data → '/' ∉ r.data → '/' ∉ v.data →
      '/' ∉ o'.data → '/' ∉ r'.data → '/' ∉ v'.data →
      getGlobalPathFlat base o r v = getGlobalPathFlat base o' r' v' →
      o = o' ∧ r = r' ∧ v = v') ∧
    (∀ (base : RustPath) (o r v o' r' v' : String),
      '/' ∉ o.data → '/' ∉ r.data → '/' ∉ v.data →
      '/' ∉ o'.data → '/' ∉ r'.data → '/' ∉ v'.data →
      o ≠ "" → r ≠ "" → v ≠ "" → o' ≠ "" → r' ≠ "" → v' ≠ "" →
      o ≠ "." → r ≠ "." → v ≠ "." → o' ≠ "." → r' ≠ "." → v' ≠ "." →
      getGlobalPathNested base o r v = getGlobalPathNested base o' r' v' →
      o = o' ∧ r = r' ∧ v = v') := by
  refine ⟨fun base o r v => ⟨rfl, rfl⟩, ?_, ?_⟩
  · intro base o r v o' r' v' hu1 hu2 hu3 hu4 hp1 hp2 hp3 hp4 hp5 hp6 heq
    unfold getGlobalPathFlat at heq
    rw [pushStr_plain base _ (flat_name_no_slash o r v hp1 hp2 hp3)
          (flat_name_ne_empty o r v) (flat_name_ne_dot o r v),
        pushStr_plain base _ (flat_name_no_slash o' r' v' hp4 hp5 hp6)
          (flat_name_ne_empty o' r' v') (flat_name_ne_dot o' r' v')] at heq
    have hcomps : base.comps ++ [o ++ "_" ++ r ++ "_" ++ v] =
        base.comps ++ [o' ++ "_" ++ r' ++ "_" ++ v'] := by
      have := congrArg RustPath.comps heq
      simpa using this
    have hsingle := List.append_cancel_left hcomps
    have hnames : o ++ "_" ++ r ++ "_" ++ v = o' ++ "_" ++ r' ++ "_" ++ v' := by
      injection hsingle
    have hdd := congrArg String.data hnames
    rw [flat_name_data, flat_name_data] at hdd
    obtain ⟨h1, h2, h3⟩ := sep_join3_inj hu1 hu2 hu3 hu4 hdd
    exact ⟨string_eq_of_data_eq h1, string_eq_of_data_eq h2,
      string_eq_of_data_eq h3⟩
  · intro base o r v o' r' v' hp1 hp2 hp3 hp4 hp5 hp6
      hne1 hne2 hne3 hne4 hne5 hne6 hd1 hd2 hd3 hd4 hd5 hd6 heq
    unfold getGlobalPathNested at heq
    rw [pushStr_plain base o hp1 hne1 hd1,
        pushStr_plain _ r hp2 hne2 hd2,
        pushStr_plain _ v hp3 hne3 hd3,
        pushStr_plain base o' hp4 hne4 hd4,
        pushStr_plain _ r' hp5 hne5 hd5,
        pushStr_plain _ v' hp6 hne6 hd6] at heq
    have hcomps : base.comps ++ [o, r, v] = base.comps ++ [o', r', v'] := by
      have := congrArg RustPath.comps heq
      simpa [List.append_assoc] using this
    have h3 := List.append_cancel_left hcomps
    simp only [List.cons.injEq, and_true] at h3
    exact ⟨h3.1, h3.2.1, h3.2.2⟩

/-- C2 witness: the injectivity conclusions evaluated on concrete plain
triples (flat era with `alice/libfoo 1.0`, nested era with
`bob/libbar 2.0`). -/
theorem globalPath_injective_witness :
    (("alice" : String) = "alice" ∧ ("libfoo" : String) = "libfoo" ∧
      ("1.0" : String) = "1.0") ∧
    (("bob" : String) = "bob" ∧ ("libbar" : String) = "libbar" ∧
      ("2.0" : String) = "2.0") :=
  ⟨globalPath_pure_and_injective_on_plain_components.2.1 pkgBase
      "alice" "libfoo" "1.0" "alice" "libfoo" "1.0"
      (by decide) (by decide) (by decide) (by decide) (by decide) (by decide)
      (by decide) (by decide) (by decide) (by decide) rfl,
    globalPath_pure_and_injective_on_plain_components.2.2 pkgBase
      "bob" "libbar" "2.0" "bob" "libbar" "2.0"
      (by decide) (by decide) (by decide) (by decide) (by decide) (by decide)
      (by decide) (by decide) (by decide) (by decide) (by decide) (by decide)
      (by decide) (by decide) (by decide) (by decide) (by decide) (by decide)
      rfl⟩

/-- C2 counterexample: distinct (owner, repository, version) triples whose
cache paths coincide.  Flat era: `("a", "b_c", "d")` and `("a_b", "c", "d")`
both map to `<pkg-dir>/a_b_c_d`.  Nested era: an absolute version `"/v"`
makes `join` discard everything before it, so `("a", "b", "/v")` and
`("x", "y", "/v")` share the cache directory `/v`.  The path function is
therefore not injective over all distinct triples. -/
theorem globalPathFlat_not_injective :
    (getGlobalPathFlat pkgBase "a" "b_c" "d" =
        getGlobalPathFlat pkgBase "a_b" "c" "d" ∧
      (("a" : String), ("b_c" : String), ("d" : String)) ≠ ("a_b", "c", "d")) ∧
    (getGlobalPathNested pkgBase "a" "b" "/v" =
        getGlobalPathNested pkgBase "x" "y" "/v" ∧
      (("a" : String), ("b" : String)) ≠ ("x", "y")) := by
  refine ⟨⟨?_, by decide⟩, ⟨?_, by decide⟩⟩ <;> rfl

theorem maxByName_spec :
    ∀ (rest : List Tag) (t0 : Tag), maxByName t0 rest ∈ t0 :: rest ∧
      ∀ t ∈ t0 :: rest, t.name ≤ (maxByName t0 rest).name := by
  intro rest
  induction rest with
  | nil =>
    intro t0
    refine ⟨List.mem_cons_self _ _, ?_⟩
    intro t ht
    rcases List.mem_cons.mp ht with h | h
    · exact le_of_eq (congrArg Tag.name h)
    · cases h
  | cons x rest ih =>
    intro t0
    have hstep : maxByName t0 (x :: rest) =
        maxByName (if x.name < t0.name then t0 else x) rest := rfl
    set m := if x.name < t0.name then t0 else x with hm
    obtain ⟨hmem, hmax⟩ := ih m
    have hm_cases : m = t0 ∨ m = x := by
      by_cases hx : x.name < t0.name
      · exact Or.inl (by rw [hm, if_pos hx])
      · exact Or.inr (by rw [hm, if_neg hx])
    have ht0m : t0.name ≤ m.name := by
      by_cases hx : x.name < t0.name
      · rw [hm, if_pos hx]
      · rw [hm, if_neg hx]; exact le_of_not_lt hx
    have hxm : x.name ≤ m.name := by
      by_cases hx : x.name < t0.name
      · rw [hm, if_pos hx]; exact le_of_lt hx
      · rw [hm, if_neg hx]
    constructor
    · rw [hstep]
      rcases List.mem_cons.mp hmem with h | h
      · rcases hm_cases with h0 | h0 <;> rw [h, h0]
        · exact List.mem_cons_self _ _
        · exact List.mem_cons_of_mem _ (List.mem_cons_self _ _)
      · exact List.mem_cons_of_mem _ (List.mem_cons_of_mem _ h)
    · intro t ht
      rw [hstep]
      have hmself : m.name ≤ (maxByName m rest).name :=
        hmax m (List.mem_cons_self _ _)
      rcases List.mem_cons.mp ht with h | h
      · exact le_trans (le_of_eq (congrArg Tag.name h)) (le_trans ht0m hmself)
      · rcases List.mem_cons.mp h with h2 | h2
        · exact le_trans (le_of_eq (congrArg Tag.name h2)) (le_trans hxm hmself)
        · exact hmax t (List.mem_cons_of_mem _ h2)

/-- C5 (amended): with no version requested, the flat-era resolver selects a
tag whose name is lexicographically maximal among all returned tags, while
the packaging-era resolver selects the *last* tag of the returned list
(which need not be lexicographically maximal, see the counterexample). -/
theorem selectTag_no_version_behaviour :
    (∀ (t0 : Tag) (rest : List Tag), ∃ t, selectTagMain (t0 :: rest) none = .ok t ∧
        t ∈ t0 :: rest ∧ ∀ u ∈ t0 :: rest, u.name ≤ t.name) ∧
    (∀ (t0 : Tag) (rest : List Tag),
        selectTagPack (t0 :: rest) none =
          .ok ((t0 :: rest).getLast (List.cons_ne_nil t0 rest))) := by
  constructor
  · intro t0 rest
    obtain ⟨hmem, hmax⟩ := maxByName_spec rest t0
    exact ⟨maxByName t0 rest, rfl, hmem, hmax⟩
  · intro t0 rest
    rfl

/-- C5 witness: the amended selection behaviour evaluated on the concrete
tag list `["0.2", "0.1"]`. -/
theorem selectTag_no_version_behaviour_witness :
    (∃ t, selectTagMain [Tag.mk "0.2" "" "", Tag.mk "0.1" "" ""] none = .ok t ∧
        t ∈ [Tag.mk "0.2" "" "", Tag.mk "0.1" "" ""] ∧
        ∀ u ∈ [Tag.mk "0.2" "" "", Tag.mk "0.1" "" ""], u.name ≤ t.name) ∧
      selectTagPack [Tag.mk "0.2" "" "", Tag.mk "0.1" "" ""] none =
        .ok ([Tag.mk "0.2" "" "", Tag.mk "0.1" "" ""].getLast (by simp)) :=
  ⟨selectTag_no_version_behaviour.1 (Tag.mk "0.2" "" "") [Tag.mk "0.1" "" ""],
    selectTag_no_version_behaviour.2 (Tag.mk "0.2" "" "") [Tag.mk "0.1" "" ""]⟩

/-- C5 counterexample: on the tag list `["0.2", "0.1"]` with no version
requested, the packaging-era resolver returns the tag named `"0.1"`, yet
`"0.2"` — a strictly lexicographically greater name — is among the returned
tags, so the selected tag is not the lexicographically maximal one. -/
theorem selectTagPack_not_lex_maximal :
    selectTagPack [Tag.mk "0.2" "" "", Tag.mk "0.1" "" ""] none =
        .ok (Tag.mk "0.1" "" "") ∧
      Tag.mk "0.2" "" "" ∈ [Tag.mk "0.2" "" "", Tag.mk "0.1" "" ""] ∧
      ¬ (("0.2" : String) ≤ "0.1") := by
  refine ⟨rfl, by simp, ?_⟩
  rw [not_le, String.lt_iff_toList_lt]
  decide

/-- C6: evaluating the flat-era `add_package` chain collection at a package
(`alice/libA`) whose own manifest declares a dependency on `bob/libB`
version `1.0`.  The code returns the frontier triple
`("alice", "libA", "1.0")` — the *declaring* package's owner and repository
with the child's version — instead of `("bob", "libB", "1.0")` as the claim
(and the packaging-era sibling implementation, second conjunct) prescribe. -/
theorem addPackageMain_frontier_parent_identity :
    addPackageMain regCycle "alice" "libA" none =
      .ok ([("alice", "libA", "1.0")],
        { uri := "https://github.com/alice/libA", version := "1.0",
          includeDir := some "include", sourceDir := some "src",
          sharedObjectDir := none, staticLibDir := none }) ∧
    addPackagePack regCycle "alice" "libA" none =
      .ok ([("bob", "libB", "1.0")],
        { uri := "https://github.com/alice/libA", version := "1.0" }) := by
  constructor <;> rfl

/-- C4: on the cyclic two-package graph (`alice/libA` ↔ `bob/libB`) both
fuel-bounded resolver loops reach an empty frontier (no `fuelOut`), but the
flat-era resolver — whose next frontier carries the parent's identity —
produces a dependency set containing only the root `libA`, never visiting
`libB`; the packaging-era resolver produces both, exactly once each. -/
theorem resolve_cycle_terminates_but_main_misses_B :
    resolveAddingPackageMain regCycle none "alice" "libA" none 5 =
      .done [{ uri := "https://github.com/alice/libA", version := "1.0",
               includeDir := some "include", sourceDir := some "src",
               sharedObjectDir := none, staticLibDir := none }] ∧
    resolveAddingPackagePack regCycle none "alice" "libA" none 5 =
      .done [KilnIngot.mk "https://github.com/alice/libA" "1.0",
             KilnIngot.mk "https://github.com/bob/libB" "1.0"] := by
  constructor <;> rfl

/-- C1: the claimed rollback does not happen.  Importing `source_code` for a
package whose `src` directory holds `alpha.c` and `util.c` into a project
whose local `dependencies/source_code` already holds `util.c`: the import
copies `alpha.c`, then hits the `util.c` collision and calls
`remove_deps_local` before exiting — but that helper only matches *path
components* of the category directory's path against components of the
package's relative source directory, so it removes nothing, and `alpha.c`
(copied during this very call) is still present in the local category
directory at exit. -/
theorem import_collision_leaves_partial_state :
    copyDepsGlobalToLocal ["home", "user", "proj"] pkgX "source_code"
        [["dependencies", "source_code", "util.c"]] =
      .exited [["dependencies", "source_code", "util.c"],
               ["dependencies", "source_code", "alpha.c"]] ∧
    ["dependencies", "source_code", "alpha.c"] ∈
      [["dependencies", "source_code", "util.c"],
       ["dependencies", "source_code", "alpha.c"]] := by
  exact ⟨rfl, by simp⟩

/-- C8: the extension table matches the claim, but the enumerated directory
does not: for the `header_files` category the importer enumerates the
package's *source* directory (src/package_manager.rs:457), so a package
whose metadata places `api.h` under its `include` directory has nothing
copied — the header import returns with the local filesystem unchanged even
though the include directory holds a header. -/
theorem header_import_enumerates_source_dir :
    fileExtFor "source_code" = some [".c", ".cpp", ".cu"] ∧
    fileExtFor "header_files" = some [".h", ".hpp", ".cuh"] ∧
    fileExtFor "shared_objects" = some [".so", ".dylib", ".dll"] ∧
    fileExtFor "static_libraries" = some [".a", ".lib"] ∧
    copyDepsGlobalToLocal ["home", "user", "proj"] pkgHdr "header_files" [] =
      .ok [] ∧
    filesInDir pkgHdr ["include"] = some ["api.h"] := by
  exact ⟨rfl, rfl, rfl, rfl, rfl, rfl⟩

/-- C7: a project whose only source file includes `<pthread.h>` gets *no*
`-pthread` flag: the include scan does find `<pthread.h>`, and the mapping
table does carry `("<pthread.h>", "-pthread")`, but `link_sys_lib`'s
scanning loop is commented out in the source, so it returns the empty flag
list for every input; the commented-out/spec behaviour would produce
exactly `["-pthread"]`. -/
theorem linkSysLib_returns_no_flags :
    extractIncludeStatements ["#include <pthread.h>\n\nint kiln_start(void);"] =
      some ["<pthread.h>"] ∧
    ("<pthread.h>", "-pthread") ∈ cLibMappings ∧
    linkSysLib ["<pthread.h>"] = [] ∧
    linkSysLibIntended ["<pthread.h>"] = ["-pthread"] := by
  refine ⟨rfl, by simp [cLibMappings], rfl, rfl⟩

theorem installGlobally_mem (fs : List (List String)) (pkgDir : List String)
    (fetch : Except String (List (List String))) :
    pkgDir ∈ (installGlobally fs pkgDir fetch).1 := by
  by_cases h : pkgDir ∈ fs
  · simp [installGlobally, h]
  · cases fetch with
    | error e => simp [installGlobally, h]
    | ok entries => simp [installGlobally, h]

/-- C9: installation into the global cache is idempotent.  If the package's
global path already exists the call is a no-op — it performs no network
fetch and returns the cache unchanged (first conjunct); consequently the
second of two consecutive install calls for the same package, whatever the
outcome of the first call's fetch, fetches nothing and leaves the cache
exactly as the first call left it (second conjunct). -/
theorem installGlobally_idempotent :
    (∀ fs pkgDir fetch, pkgDir ∈ fs →
      installGlobally fs pkgDir fetch = (fs, false, true)) ∧
    (∀ fs pkgDir fetch fetch2,
      installGlobally (installGlobally fs pkgDir fetch).1 pkgDir fetch2 =
        ((installGlobally fs pkgDir fetch).1, false, true)) := by
  have hnoop : ∀ fs pkgDir (fetch : Except String (List (List String))),
      pkgDir ∈ fs → installGlobally fs pkgDir fetch = (fs, false, true) := by
    intro fs pkgDir fetch h
    simp [installGlobally, h]
  exact ⟨hnoop, fun fs pkgDir fetch fetch2 =>
    hnoop _ _ _ (installGlobally_mem fs pkgDir fetch)⟩

/-- C9 witness: a cache already holding the package directory is returned
unchanged, with no fetch. -/
theorem installGlobally_idempotent_witness :
    installGlobally [["packages", "alice_lib_1.0"]] ["packages", "alice_lib_1.0"]
        (Except.error "timeout") =
      ([["packages", "alice_lib_1.0"]], false, true) :=
  installGlobally_idempotent.1 [["packages", "alice_lib_1.0"]]
    ["packages", "alice_lib_1.0"] (Except.error "timeout") (by simp)

theorem launchPhase_pair (seen : List String) (o p v1 v2 : String)
    (h : repoUri o p ∉ seen) :
    launchPhase seen [(o, p, v1), (o, p, v2)] =
      (repoUri o p :: seen, [(o, p, v1)]) := by
  simp [launchPhase, h]

theorem addPackageMain_eval (reg : Registry) (o p v : String) (data : RepoData)
    (t0 : Tag) (rest2 : List Tag) (tag : Tag)
    (hlook : lookupRepo reg o p = some data)
    (htags : data.tags = t0 :: rest2)
    (hsel : selectTagMain (t0 :: rest2) (some v) = .ok tag)
    (hcfg : data.kilnCfgDeps = none) :
    addPackageMain reg o p (some v) = .ok ([], mkDepRecord o p tag.name data) := by
  simp only [addPackageMain, hlook, htags, hsel, hcfg]

/-- C3: dependency deduplication ignores the version and the first-resolved
version wins.  (i) The request-side dedup (`packages_added`) keys on
`https://github.com/<owner>/<repo>` alone: of two same-repository requests
with different versions, only the first is launched.  (ii) Running the
flat-era frontier loop on the two requests appends *exactly one* record to
the manifest list — the one carrying the tag resolved for the first
request; the later request is dropped, not merged.  (iii) Weak equality of
manifest records holds for any two records with the same parseable uri,
whatever their versions.  (iv)/(v) `Dependnecy::add_dependency` drops a
record weakly equal to an existing one (returning the list unchanged) and
appends otherwise. -/
theorem resolver_weak_dedup_first_wins :
    (∀ (o p v1 v2 : String),
      launchPhase [] [(o, p, v1), (o, p, v2)] =
        ([repoUri o p], [(o, p, v1)])) ∧
    (∀ (reg : Registry) (o p v1 v2 : String) (deps0 : List Dependnecy)
        (data : RepoData) (t0 : Tag) (rest2 : List Tag) (tag : Tag) (fuel : Nat),
      v1 ≠ "" →
      lookupRepo reg o p = some data →
      data.tags = t0 :: rest2 →
      selectTagMain (t0 :: rest2) (some v1) = .ok tag →
      data.kilnCfgDeps = none →
      resolveMainLoop reg (fuel + 2) [] deps0 [(o, p, v1), (o, p, v2)] =
        .done (deps0 ++ [mkDepRecord o p tag.name data])) ∧
    (∀ a b : Dependnecy, a.uri = b.uri →
      (parseGithubUri a.uri).toOption.isSome → weakEq? a b = some true) ∧
    (∀ (d : Dependnecy) (rest : List Dependnecy) (newDep : Dependnecy),
      weakEq? d newDep = some true →
      addDependency? (d :: rest) newDep = some (d :: rest, true)) ∧
    (∀ (deps : List Dependnecy) (newDep : Dependnecy),
      addDepAux newDep deps = some false →
      addDependency? deps newDep = some (deps ++ [newDep], false)) := by
  refine ⟨?_, ?_, ?_, ?_, ?_⟩
  · intro o p v1 v2
    exact launchPhase_pair [] o p v1 v2 (by simp)
  · intro reg o p v1 v2 deps0 data t0 rest2 tag fuel hv1 hlook htags hsel hcfg
    have hl := launchPhase_pair [] o p v1 v2 (by simp)
    have hnorm : normVersion v1 = some v1 := by simp [normVersion, hv1]
    have hadd := addPackageMain_eval reg o p v1 data t0 rest2 tag hlook htags hsel hcfg
    have e1 : resolveMainLoop reg (fuel + 2) [] deps0 [(o, p, v1), (o, p, v2)] =
        match joinPhaseMain reg
            (launchPhase [] [(o, p, v1), (o, p, v2)]).2 deps0 [] with
        | .error e => ResOut.err e
        | .ok r =>
          resolveMainLoop reg (fuel + 1)
            (launchPhase [] [(o, p, v1), (o, p, v2)]).1 r.1 r.2 := rfl
    rw [e1, hl]
    have e2 : joinPhaseMain reg
        (((([repoUri o p], [(o, p, v1)]) :
          List String × List (String × String × String))).2) deps0 [] =
        match addPackageMain reg o p (normVersion v1) with
        | .error e => Except.error e
        | .ok r => joinPhaseMain reg [] (deps0 ++ [r.2]) ([] ++ r.1) := rfl
    rw [e2, hnorm, hadd]
    rfl
  · intro a b huri hsome
    obtain ⟨q, hq⟩ := Option.isSome_iff_exists.mp hsome
    have hqb : (parseGithubUri b.uri).toOption = some q := huri ▸ hq
    simp [weakEq?, ownerOf?, repoOf?, huri, hqb]
  · intro d rest newDep h
    simp [addDependency?, addDepAux, h]
  · intro deps newDep h
    simp [addDependency?, h]

/-- C3 witness: in a registry where `alice/lib` has tags `1.0` and `2.0`,
processing the request sequence `(alice, lib, 1.0)` then `(alice, lib, 2.0)`
yields exactly one manifest record, carrying version `1.0`; and a record
weakly equals a same-repository record with a different version. -/
theorem resolver_weak_dedup_first_wins_witness :
    resolveMainLoop regDedup 2 [] []
        [("alice", "lib", "1.0"), ("alice", "lib", "2.0")] =
      .done [mkDepRecord "alice" "lib" "1.0" dataDedup] ∧
    weakEq? depAlice { uri := depAlice.uri, version := "9.9" } = some true :=
  ⟨resolver_weak_dedup_first_wins.2.1 regDedup "alice" "lib" "1.0" "2.0" []
      dataDedup (Tag.mk "1.0" "" "") [Tag.mk "2.0" "" ""] (Tag.mk "1.0" "" "") 0
      (by decide) rfl rfl rfl rfl,
    resolver_weak_dedup_first_wins.2.2.1 depAlice
      { uri := depAlice.uri, version := "9.9" } rfl rfl⟩

/-- C10 counterexample: appending a dependency record whose uri does not
contain `github.com/` to an *empty* dependency list does not panic — no
weak-equality comparison is performed, so `add_dependency` returns normally
with the record appended. -/
theorem addDependency_unparseable_empty_list_no_panic :
    (parseGithubUri badDep.uri).toOption = none ∧
    addDependency? [] badDep = some ([badDep], false) := by
  exact ⟨rfl, rfl⟩

/-- C10 (amended): the weak-equality comparison panics whenever either
record's uri fails to parse as a GitHub uri (first two conjuncts), and the
deduplicating append panics whenever a comparison actually occurs with an
unparseable record — in particular appending an unparseable record to any
*non-empty* list (third conjunct), or appending to a list whose first
record is unparseable (fourth conjunct); the append is total when every
involved uri parses (fifth conjunct).  Appending an unparseable record to
an empty list returns normally (see the counterexample). -/
theorem weakEq_addDependency_panic_conditions :
    (∀ a b : Dependnecy, (parseGithubUri a.uri).toOption = none →
      weakEq? a b = none) ∧
    (∀ a b : Dependnecy, (parseGithubUri b.uri).toOption = none →
      weakEq? a b = none) ∧
    (∀ (d : Dependnecy) (rest : List Dependnecy) (newDep : Dependnecy),
      (parseGithubUri newDep.uri).toOption = none →
      addDependency? (d :: rest) newDep = none) ∧
    (∀ (d : Dependnecy) (rest : List Dependnecy) (newDep : Dependnecy),
      (parseGithubUri d.uri).toOption = none →
      addDependency? (d :: rest) newDep = none) ∧
    (∀ (deps : List Dependnecy) (newDep : Dependnecy),
      (∀ d ∈ deps, (parseGithubUri d.uri).toOption.isSome) →
      (parseGithubUri newDep.uri).toOption.isSome →
      (addDependency? deps newDep).isSome) := by
  have hpanicL : ∀ a b : Dependnecy, (parseGithubUri a.uri).toOption = none →
      weakEq? a b = none := by
    intro a b h
    simp [weakEq?, ownerOf?, repoOf?, h]
  have hpanicR : ∀ a b : Dependnecy, (parseGithubUri b.uri).toOption = none →
      weakEq? a b = none := by
    intro a b h
    cases hpa : (parseGithubUri a.uri).toOption with
    | none => simp [weakEq?, ownerOf?, repoOf?, hpa]
    | some q => simp [weakEq?, ownerOf?, repoOf?, hpa, h]
  refine ⟨hpanicL, hpanicR, ?_, ?_, ?_⟩
  · intro d rest newDep h
    simp [addDependency?, addDepAux, hpanicR d newDep h]
  · intro d rest newDep h
    simp [addDependency?, addDepAux, hpanicL d newDep h]
  · intro deps newDep hall hnew
    induction deps with
    | nil => simp [addDependency?, addDepAux]
    | cons d rest ih =>
      obtain ⟨qd, hqd⟩ := Option.isSome_iff_exists.mp (hall d (List.mem_cons_self d rest))
      obtain ⟨qn, hqn⟩ := Option.isSome_iff_exists.mp hnew
      have hweak : weakEq? d newDep = some (qd.1 == qn.1 && qd.2 == qn.2) := by
        simp [weakEq?, ownerOf?, repoOf?, hqd, hqn]
      have hall2 : ∀ e ∈ rest, (parseGithubUri e.uri).toOption.isSome :=
        fun e he => hall e (List.mem_cons_of_mem d he)
      by_cases hb : (qd.1 == qn.1 && qd.2 == qn.2) = true
      · simp [addDependency?, addDepAux, hweak, hb]
      · have ih2 := ih hall2
        simp only [addDependency?] at ih2 ⊢
        simp only [addDepAux, hweak]
        rw [Bool.eq_false_iff.mpr hb]
        cases haux : addDepAux newDep rest with
        | none => rw [haux] at ih2; simp at ih2
        | some bb =>
          rw [haux] at ih2
          cases bb <;> simp

/-- C10 witness: the panic and totality conditions evaluated on concrete
records — comparing the unparseable record panics, appending it to a
non-empty list panics, and appending between parseable records returns a
result. -/
theorem weakEq_addDependency_panic_witness :
    weakEq? badDep depAlice = none ∧
    addDependency? [depAlice] badDep = none ∧
    (addDependency? [depAlice] { uri := depAlice.uri, version := "2.0" }).isSome :=
  ⟨weakEq_addDependency_panic_conditions.1 badDep depAlice rfl,
    weakEq_addDependency_panic_conditions.2.2.1 depAlice [] badDep rfl,
    weakEq_addDependency_panic_conditions.2.2.2.2 [depAlice]
      { uri := depAlice.uri, version := "2.0" }
      (by
        intro d hd
        rw [List.mem_singleton.mp hd]
        rfl)
      rfl⟩

end Kiln
